import Mathlib

/-!
Verification of the clip-timing planner and segment allocator of the
video assembly stage (`src/video_editor.py`).

Floats are modelled by exact rationals (`ℚ`).  File-system facts that the
Python code observes (`os.path.exists`, probing a video file's duration with
the media toolkit) are modelled as explicit fields of the `VideoAsset`
record, so that the planner becomes a pure function of its inputs.
-/

/-- One narration segment of the generated script (`llm_engine.Segment`). -/
structure Segment where
  text : String
  visual_keyword : String
  duration_estimate : ℚ
deriving Repr, DecidableEq

/-- The full generated script (`llm_engine.VideoScript`). -/
structure VideoScript where
  segments : List Segment
  total_duration : ℚ
  title : String := ""
  source_url : String := ""
deriving Repr, DecidableEq

/-- One synthesized narration audio file (`tts_engine.AudioSegment`). -/
structure AudioSegment where
  index : Int
  text : String
  file_path : String
  duration : ℚ := 0
deriving Repr, DecidableEq

/-- One downloaded stock-footage candidate (`asset_manager.VideoAsset`).
`fileExists` models `os.path.exists(self.file_path)`; `probeDuration`
models the duration obtained by opening the file with the media toolkit
(`VideoFileClip(...).duration`), `none` meaning that probing raises. -/
structure VideoAsset where
  keyword : String
  file_path : String
  source : String
  width : Int
  height : Int
  duration : ℚ
  url : String := ""
  fileExists : Bool
  probeDuration : Option ℚ
deriving Repr, DecidableEq

instance : Inhabited VideoAsset :=
  ⟨⟨"", "", "", 0, 0, 0, "", false, none⟩⟩

/-- A part of a video clip for assembly (`video_editor.ClipPart`). -/
structure ClipPart where
  video_path : String
  audio_path : String
  start_time : ℚ
  duration : ℚ
  text : String
  is_split : Bool := false
  video_start : ℚ := 0
deriving Repr, DecidableEq

/-- The configuration values the editor reads (`config.max_clip_duration`,
`config.min_clip_duration`; defaults 4.0 and 1.5). -/
structure EditorConfig where
  max_clip_duration : ℚ
  min_clip_duration : ℚ
deriving Repr, DecidableEq

/-- The default configuration shipped with the repository. -/
def defaultConfig : EditorConfig := ⟨4, 3/2⟩

/-- A claimed `(start, end)` time range inside one video file. -/
abbrev Range : Type := ℚ × ℚ

/-- The allocator state `self._used_video_segments`:
`{video_path: [used_time_ranges]}`, as an association list. -/
abbrev UsedTable : Type := List (String × List Range)

/-- Ranges recorded for one path (missing key reads as the empty list). -/
def rangesOf (t : UsedTable) (p : String) : List Range :=
  ((t.find? (fun e => e.1 == p)).map Prod.snd).getD []

/-- Models `if video_path not in table: table[video_path] = []`. -/
def ensurePath (t : UsedTable) (p : String) : UsedTable :=
  if t.any (fun e => e.1 == p) then t else t ++ [(p, [])]

/-- Replace the range list stored under a path. -/
def setRanges (t : UsedTable) (p : String) (rs : List Range) : UsedTable :=
  t.map (fun e => if e.1 == p then (e.1, rs) else e)

/-- Lexicographic order on ranges, as used by Python `sorted` on pairs. -/
def rangeLeB (a b : Range) : Bool :=
  decide (a.1 < b.1) || (decide (a.1 = b.1) && decide (a.2 ≤ b.2))

/-- Insert a range into a lexicographically sorted list. -/
def insertRange (r : Range) : List Range → List Range
  | [] => [r]
  | x :: xs => if rangeLeB x r then x :: insertRange r xs else r :: x :: xs

/-- Models Python `sorted(used_ranges)` (ascending lexicographic order). -/
def sortRanges (l : List Range) : List Range :=
  l.foldr insertRange []

/-- The candidate acceptance test of `_get_available_segment`: the clipped
segment starting at `s` must last at least half a second and must not
overlap any already used range. -/
def acceptsB (used : List Range) (vid needed : ℚ) (s : ℚ) : Bool :=
  let e := min (s + needed) vid
  decide ((1 : ℚ)/2 ≤ e - s) &&
    !(used.any (fun u => !(decide (e ≤ u.1) || decide (s ≥ u.2))))

/-- Candidate start points of `_get_available_segment`: `0.0`, then the end
of every used range (in sorted order) that lies strictly below the video
duration. -/
def potentialStarts (used : List Range) (vid : ℚ) : List ℚ :=
  0 :: ((sortRanges used).filter (fun r => decide (r.2 < vid))).map Prod.snd

/-- `StudioEditor._get_available_segment`: returns `(start, actual_duration)`
together with the updated used-segment table. -/
def getAvailableSegment (t : UsedTable) (p : String) (vid needed : ℚ) :
    (ℚ × ℚ) × UsedTable :=
  match (potentialStarts (rangesOf (ensurePath t p) p) vid).find?
      (acceptsB (rangesOf (ensurePath t p) p) vid needed) with
  | some s =>
      ((s, min (s + needed) vid - s),
       setRanges (ensurePath t p) p
         (rangesOf (ensurePath t p) p ++ [(s, min (s + needed) vid)]))
  | none => ((0, min needed vid), ensurePath t p)

/-- Effective duration of a video as the planner sees it: the probed
duration when probing succeeds, otherwise `current_video.duration or 10.0`
(Python `or` treats a zero duration as falsy). -/
def videoDurationOf (v : VideoAsset) : ℚ :=
  match v.probeDuration with
  | some d => d
  | none => if v.duration = 0 then 10 else v.duration

/-- The deduplicating pool builder at the head of `_create_split_clips`:
primary video first, then the fallback list, then the full valid-asset
list, skipping missing files and already seen paths. -/
def poolStep (acc : List VideoAsset × List String) (v : VideoAsset) :
    List VideoAsset × List String :=
  if v.fileExists && !(acc.2.contains v.file_path) then
    (acc.1 ++ [v], acc.2 ++ [v.file_path])
  else acc

/-- Build the candidate video pool of `_create_split_clips`. -/
def buildPool (primary : VideoAsset) (fallbacks : List (Option VideoAsset))
    (allAssets : List VideoAsset) : List VideoAsset :=
  let init : List VideoAsset × List String :=
    if primary.fileExists then ([primary], [primary.file_path]) else ([], [])
  let afterFb := fallbacks.foldl
    (fun acc ov => match ov with | some v => poolStep acc v | none => acc) init
  (allAssets.foldl poolStep afterFb).1

/-- Element of the pool at a cyclic index (`video_pool[video_idx % len]`). -/
def poolGet (pool : List VideoAsset) (i : Nat) : VideoAsset :=
  pool.getD (i % pool.length) default

/-- The inner attempt loop of `_create_split_clips`: cycle through the pool
for at most `attempts` tries, asking the allocator for a segment of length
`cd`; the first answer of at least half a second becomes a `ClipPart`.
Returns the optional part together with its duration, the advanced cyclic
video index, and the updated table. -/
def splitAttempts (pool : List VideoAsset) (audio_path text : String)
    (toff : ℚ) (cd : ℚ) :
    Nat → Nat → UsedTable → Option (ClipPart × ℚ) × Nat × UsedTable
  | 0, vidx, t => (none, vidx, t)
  | n + 1, vidx, t =>
      let cv := poolGet pool vidx
      let vd := videoDurationOf cv
      let r := getAvailableSegment t cv.file_path vd cd
      if (1 : ℚ)/2 ≤ r.1.2 then
        (some (⟨cv.file_path, audio_path, toff, min r.1.2 cd, text, true, r.1.1⟩,
               min r.1.2 cd),
         vidx + 1, r.2)
      else
        splitAttempts pool audio_path text toff cd n (vidx + 1) r.2

/-- Length of the next slice in `_create_split_clips`:
`clip_duration = min(max_clip_duration, remaining)`, then clamped up to
`min_clip_duration` when the slice would be below the minimum while more
than the minimum remains. -/
def clipDur (cfg : EditorConfig) (remaining : ℚ) : ℚ :=
  if min cfg.max_clip_duration remaining < cfg.min_clip_duration ∧
      cfg.min_clip_duration < remaining
  then cfg.min_clip_duration
  else min cfg.max_clip_duration remaining

/-- The outer while-loop of `_create_split_clips`, with `fuel` counting the
remaining iterations allowed by the `max_clips = 10` safety limit. -/
def splitLoop (cfg : EditorConfig) (pool : List VideoAsset)
    (audio_path text : String) :
    Nat → ℚ → ℚ → Nat → UsedTable → List ClipPart × UsedTable
  | 0, _, _, _, t => ([], t)
  | fuel + 1, remaining, toff, vidx, t =>
      if remaining ≤ 0 then ([], t)
      else
        let cd1 := clipDur cfg remaining
        match splitAttempts pool audio_path text toff cd1 (pool.length * 2) vidx t with
        | (some (part, cd2), vidx2, t2) =>
            let rest := splitLoop cfg pool audio_path text fuel
              (remaining - cd2) (toff + cd2) vidx2 t2
            (part :: rest.1, rest.2)
        | (none, vidx2, t2) =>
            let part : ClipPart :=
              ⟨(pool.headD default).file_path, audio_path, toff, cd1, text, true, 0⟩
            let rest := splitLoop cfg pool audio_path text fuel
              (remaining - cd1) (toff + cd1) vidx2 t2
            (part :: rest.1, rest.2)

/-- `StudioEditor._create_split_clips`: split one long audio segment into
multiple visual clip parts. -/
def createSplitClips (cfg : EditorConfig) (audio_duration : ℚ)
    (audio_path : String) (primary : VideoAsset)
    (fallbacks : List (Option VideoAsset)) (text : String)
    (allAssets : List VideoAsset) (t : UsedTable) : List ClipPart × UsedTable :=
  let pool := buildPool primary fallbacks allAssets
  if pool.isEmpty then ([], t)
  else splitLoop cfg pool audio_path text 10 audio_duration 0 0 t

/-- The body of the planning loop of `_plan_clip_splits` for script index
`i`: skip on non-positive audio duration or a missing video asset,
otherwise dispatch on the audio duration against the configured bounds. -/
def segmentParts (cfg : EditorConfig) (i : Nat) (segment : Segment)
    (audio : AudioSegment) (videos : List (Option VideoAsset))
    (allValid : List VideoAsset) (t : UsedTable) : List ClipPart × UsedTable :=
  let A := audio.duration
  if A ≤ 0 then ([], t)
  else
    match (videos.get? i).getD none with
    | none => ([], t)
    | some v =>
        if v.fileExists then
          if A > cfg.max_clip_duration then
            createSplitClips cfg A audio.file_path v (videos.drop (i + 1))
              segment.text allValid t
          else if A < cfg.min_clip_duration then
            let vd := videoDurationOf v
            let r := getAvailableSegment t v.file_path vd cfg.min_clip_duration
            ([⟨v.file_path, audio.file_path, 0, cfg.min_clip_duration,
               segment.text, false, r.1.1⟩], r.2)
          else
            let vd := videoDurationOf v
            let r := getAvailableSegment t v.file_path vd A
            ([⟨v.file_path, audio.file_path, 0, A, segment.text, false, r.1.1⟩],
             r.2)
        else ([], t)

/-- The indexed loop over `zip(segments, audio_segments)` in
`_plan_clip_splits`, threading the used-segment table. -/
def planLoop (cfg : EditorConfig) (videos : List (Option VideoAsset))
    (allValid : List VideoAsset) :
    List (Segment × AudioSegment) → Nat → UsedTable → List ClipPart × UsedTable
  | [], _, t => ([], t)
  | (s, a) :: rest, i, t =>
      let r1 := segmentParts cfg i s a videos allValid t
      let r2 := planLoop cfg videos allValid rest (i + 1) r1.2
      (r1.1 ++ r2.1, r2.2)

/-- Valid videos for the fallback pool:
`[v for v in video_assets if v and v.exists()]`. -/
def allValidOf (videos : List (Option VideoAsset)) : List VideoAsset :=
  (videos.filterMap id).filter (fun v => v.fileExists)

/-- `StudioEditor._plan_clip_splits` (table-returning form): the tracking
table is reset at the start of each render, then every segment is planned
in order. -/
def planClipSplitsT (cfg : EditorConfig) (segments : List Segment)
    (audio_segments : List AudioSegment) (videos : List (Option VideoAsset)) :
    List ClipPart × UsedTable :=
  planLoop cfg videos (allValidOf videos) (segments.zip audio_segments) 0 []

/-- `StudioEditor._plan_clip_splits`: the ordered clip-part plan. -/
def planClipSplits (cfg : EditorConfig) (segments : List Segment)
    (audio_segments : List AudioSegment) (videos : List (Option VideoAsset)) :
    List ClipPart :=
  (planClipSplitsT cfg segments audio_segments videos).1

/-- Sum of the `duration` fields of a list of clip parts. -/
def sumDur (l : List ClipPart) : ℚ :=
  (l.map ClipPart.duration).sum

/-- One entry of the `clips` field of the render preview. -/
structure ClipInfo where
  index : Nat
  duration : ℚ
  is_split : Bool
  text_preview : String
deriving Repr, DecidableEq

/-- Truncation used in the preview: `p.text[:50] + "..."` when the text is
longer than 50 characters. -/
def textPreview (s : String) : String :=
  if s.length > 50 then s.take 50 ++ "..." else s

/-- Result of `StudioEditor.get_render_preview`. -/
structure RenderPreview where
  total_segments : Nat
  total_clip_parts : Nat
  total_duration : ℚ
  split_clips : Nat
  clips : List ClipInfo
deriving Repr, DecidableEq

/-- `StudioEditor.get_render_preview`: run the planner and aggregate. -/
def getRenderPreview (cfg : EditorConfig) (script : VideoScript)
    (audio_segments : List AudioSegment) (videos : List (Option VideoAsset)) :
    RenderPreview :=
  let clip_parts := planClipSplits cfg script.segments audio_segments videos
  { total_segments := script.segments.length
    total_clip_parts := clip_parts.length
    total_duration := sumDur clip_parts
    split_clips := (clip_parts.filter (fun p => p.is_split)).length
    clips := clip_parts.enum.map
      (fun e => ⟨e.1, e.2.duration, e.2.is_split, textPreview e.2.text⟩) }

/-- Source-range of a clip part inside its source video file:
`(video_start, video_start + duration)`. -/
def partRange (p : ClipPart) : Range :=
  (p.video_start, p.video_start + p.duration)

/-- Two half-open ranges overlap. -/
def rangesOverlap (a b : Range) : Prop :=
  a.1 < b.2 ∧ b.1 < a.2

instance (a b : Range) : Decidable (rangesOverlap a b) := by
  unfold rangesOverlap; infer_instance

/-- Two half-open ranges are disjoint. -/
def disjRange (a b : Range) : Prop :=
  a.2 ≤ b.1 ∨ b.2 ≤ a.1

/-- Clip parts are chained from a time offset: the first part starts there
and each later part starts where the previous one ended. -/
def chainedFrom : ℚ → List ClipPart → Prop
  | _, [] => True
  | t0, p :: ps => p.start_time = t0 ∧ chainedFrom (t0 + p.duration) ps

/-- Every path of the table has pairwise disjoint claimed ranges. -/
def TableOK (t : UsedTable) : Prop :=
  ∀ p, (rangesOf t p).Pairwise disjRange


theorem rangesOf_cons (e : String × List Range) (t : UsedTable) (q : String) :
    rangesOf (e :: t) q = if e.1 == q then e.2 else rangesOf t q := by
  by_cases h : (e.1 == q) = true
  · simp [rangesOf, List.find?_cons_of_pos, h]
  · simp only [Bool.not_eq_true] at h
    simp [rangesOf, List.find?_cons_of_neg, h]

theorem setRanges_cons (e : String × List Range) (t : UsedTable) (p : String)
    (rs : List Range) :
    setRanges (e :: t) p rs =
      (if e.1 == p then (e.1, rs) else e) :: setRanges t p rs := by
  simp [setRanges]

theorem rangesOf_append_emptyEntry (t : UsedTable) (p q : String) :
    rangesOf (t ++ [(p, [])]) q = rangesOf t q := by
  induction t with
  | nil =>
      rw [List.nil_append, rangesOf_cons]
      split <;> rfl
  | cons e t ih =>
      rw [List.cons_append, rangesOf_cons, rangesOf_cons, ih]

theorem rangesOf_ensurePath (t : UsedTable) (p q : String) :
    rangesOf (ensurePath t p) q = rangesOf t q := by
  unfold ensurePath
  split
  · rfl
  · exact rangesOf_append_emptyEntry t p q

theorem any_ensurePath (t : UsedTable) (p : String) :
    (ensurePath t p).any (fun e => e.1 == p) = true := by
  unfold ensurePath
  split
  · assumption
  · simp [List.any_append]

theorem rangesOf_setRanges_self (t : UsedTable) (p : String) (rs : List Range)
    (h : t.any (fun e => e.1 == p) = true) :
    rangesOf (setRanges t p rs) p = rs := by
  induction t with
  | nil => simp at h
  | cons e t ih =>
      rw [setRanges_cons]
      by_cases he : (e.1 == p) = true
      · rw [if_pos he, rangesOf_cons]
        simp only [he, if_true]
      · rw [if_neg he, rangesOf_cons, if_neg he]
        apply ih
        simp only [List.any_cons, Bool.or_eq_true] at h
        rcases h with h | h
        · exact absurd h he
        · exact h

theorem rangesOf_setRanges_ne (t : UsedTable) (p : String) (rs : List Range)
    (q : String) (h : ¬ (p == q) = true) :
    rangesOf (setRanges t p rs) q = rangesOf t q := by
  induction t with
  | nil => rfl
  | cons e t ih =>
      rw [setRanges_cons]
      by_cases he : (e.1 == p) = true
      · have hep : e.1 = p := by simpa using he
        have heq : ¬ (e.1 == q) = true := by
          rw [hep]; exact h
        rw [if_pos he, rangesOf_cons, rangesOf_cons]
        simp only [heq, if_false, ih]
        simp
      · rw [if_neg he, rangesOf_cons, rangesOf_cons, ih]

theorem mem_insertRange (a r : Range) (l : List Range) :
    a ∈ insertRange r l ↔ a = r ∨ a ∈ l := by
  induction l with
  | nil => simp [insertRange]
  | cons x xs ih =>
      unfold insertRange
      split
      · simp only [List.mem_cons, ih]
        tauto
      · simp only [List.mem_cons]

theorem mem_sortRanges (a : Range) (l : List Range) :
    a ∈ sortRanges l ↔ a ∈ l := by
  induction l with
  | nil => simp [sortRanges]
  | cons x xs ih =>
      unfold sortRanges at ih ⊢
      rw [List.foldr_cons, mem_insertRange, ih, List.mem_cons]

theorem not_any_eq_all_not (l : List α) (f : α → Bool) :
    (!l.any f) = l.all (fun a => !(f a)) := by
  induction l with
  | nil => rfl
  | cons x xs ih => simp [List.any_cons, List.all_cons, ih]

theorem getAvailableSegment_eq (t : UsedTable) (p : String) (vid needed : ℚ) :
    getAvailableSegment t p vid needed =
      match (potentialStarts (rangesOf t p) vid).find?
          (acceptsB (rangesOf t p) vid needed) with
      | some s => ((s, min (s + needed) vid - s),
          setRanges (ensurePath t p) p
            (rangesOf t p ++ [(s, min (s + needed) vid)]))
      | none => ((0, min needed vid), ensurePath t p) := by
  unfold getAvailableSegment
  rw [rangesOf_ensurePath]

theorem acceptsB_sound (used : List Range) (vid needed s : ℚ)
    (h : acceptsB used vid needed s = true) :
    ∀ u ∈ used, disjRange u (s, min (s + needed) vid) := by
  intro u hu
  unfold acceptsB at h
  simp only [Bool.and_eq_true, Bool.not_eq_true', List.any_eq_false] at h
  have h2 := h.2 u hu
  simp only [Bool.not_eq_false, Bool.or_eq_true, decide_eq_true_eq] at h2
  unfold disjRange
  rcases h2 with h2 | h2
  · right; exact h2
  · left; exact h2

theorem alloc_TableOK (t : UsedTable) (p : String) (vid needed : ℚ)
    (h : TableOK t) : TableOK (getAvailableSegment t p vid needed).2 := by
  rw [getAvailableSegment_eq]
  cases hf : (potentialStarts (rangesOf t p) vid).find?
      (acceptsB (rangesOf t p) vid needed) with
  | none =>
      intro q
      rw [rangesOf_ensurePath]
      exact h q
  | some s =>
      intro q
      by_cases hq : (p == q) = true
      · have hq2 : p = q := by simpa using hq
        subst hq2
        rw [rangesOf_setRanges_self _ _ _ (any_ensurePath t p)]
        rw [List.pairwise_append]
        refine ⟨h p, List.pairwise_singleton _ _, ?_⟩
        intro a ha b hb
        simp only [List.mem_singleton] at hb
        subst hb
        exact acceptsB_sound _ _ _ _ (List.find?_some hf) a ha
      · rw [rangesOf_setRanges_ne _ _ _ _ hq, rangesOf_ensurePath]
        exact h q

theorem splitAttempts_TableOK (pool : List VideoAsset) (ap tx : String)
    (toff cd : ℚ) :
    ∀ (n vidx : Nat) (t : UsedTable) (res : Option (ClipPart × ℚ))
      (vidx2 : Nat) (t2 : UsedTable),
      splitAttempts pool ap tx toff cd n vidx t = (res, vidx2, t2) →
      TableOK t → TableOK t2 := by
  intro n
  induction n with
  | zero =>
      intro vidx t res vidx2 t2 heq h
      unfold splitAttempts at heq
      cases heq
      exact h
  | succ n ih =>
      intro vidx t res vidx2 t2 heq h
      unfold splitAttempts at heq
      dsimp only at heq
      split at heq
      · cases heq
        exact alloc_TableOK _ _ _ _ h
      · exact ih _ _ _ _ _ heq (alloc_TableOK _ _ _ _ h)

theorem splitLoop_TableOK (cfg : EditorConfig) (pool : List VideoAsset)
    (ap tx : String) :
    ∀ (fuel : Nat) (r toff : ℚ) (vidx : Nat) (t : UsedTable), TableOK t →
      TableOK (splitLoop cfg pool ap tx fuel r toff vidx t).2 := by
  intro fuel
  induction fuel with
  | zero => intro r toff vidx t h; exact h
  | succ fuel ih =>
      intro r toff vidx t h
      unfold splitLoop
      dsimp only
      split
      · exact h
      · split
        next part cd2 vidx2 t2 heq =>
          exact ih _ _ _ _ (splitAttempts_TableOK _ _ _ _ _ _ _ _ _ _ _ heq h)
        next vidx2 t2 heq =>
          exact ih _ _ _ _ (splitAttempts_TableOK _ _ _ _ _ _ _ _ _ _ _ heq h)

theorem createSplitClips_TableOK (cfg : EditorConfig) (A : ℚ) (ap : String)
    (primary : VideoAsset) (fallbacks : List (Option VideoAsset)) (tx : String)
    (allAssets : List VideoAsset) (t : UsedTable) (h : TableOK t) :
    TableOK (createSplitClips cfg A ap primary fallbacks tx allAssets t).2 := by
  unfold createSplitClips
  dsimp only
  split
  · exact h
  · exact splitLoop_TableOK cfg _ ap tx 10 A 0 0 t h

theorem segmentParts_TableOK (cfg : EditorConfig) (i : Nat) (seg : Segment)
    (audio : AudioSegment) (videos : List (Option VideoAsset))
    (allValid : List VideoAsset) (t : UsedTable) (h : TableOK t) :
    TableOK (segmentParts cfg i seg audio videos allValid t).2 := by
  unfold segmentParts
  dsimp only
  split
  · exact h
  · split
    · exact h
    · split
      · split
        · exact createSplitClips_TableOK _ _ _ _ _ _ _ _ h
        · split
          · exact alloc_TableOK _ _ _ _ h
          · exact alloc_TableOK _ _ _ _ h
      · exact h

theorem planLoop_TableOK (cfg : EditorConfig) (videos : List (Option VideoAsset))
    (allValid : List VideoAsset) :
    ∀ (pairs : List (Segment × AudioSegment)) (i : Nat) (t : UsedTable),
      TableOK t → TableOK (planLoop cfg videos allValid pairs i t).2 := by
  intro pairs
  induction pairs with
  | nil => intro i t h; exact h
  | cons pr rest ih =>
      intro i t h
      cases pr with
      | mk s a =>
          unfold planLoop
          exact ih _ _ (segmentParts_TableOK cfg i s a videos allValid t h)

theorem empty_TableOK : TableOK [] := by
  intro p
  exact List.Pairwise.nil

theorem sumDur_nil : sumDur [] = 0 := rfl

theorem sumDur_cons (p : ClipPart) (l : List ClipPart) :
    sumDur (p :: l) = p.duration + sumDur l := by
  simp [sumDur]

theorem clipDur_le (cfg : EditorConfig) (r : ℚ) :
    clipDur cfg r ≤ r := by
  unfold clipDur
  split
  next hc => exact le_of_lt hc.2
  next hc => exact min_le_right _ _

theorem clipDur_pos (cfg : EditorConfig) (r : ℚ) (hr : 0 < r)
    (h1 : 0 < cfg.min_clip_duration)
    (h2 : cfg.min_clip_duration ≤ cfg.max_clip_duration) :
    0 < clipDur cfg r := by
  unfold clipDur
  split
  next hc => exact h1
  next hc => exact lt_min (lt_of_lt_of_le h1 h2) hr

theorem clipDur_le_max (cfg : EditorConfig) (r : ℚ)
    (h2 : cfg.min_clip_duration ≤ cfg.max_clip_duration) :
    clipDur cfg r ≤ cfg.max_clip_duration := by
  unfold clipDur
  split
  next hc => exact h2
  next hc => exact min_le_left _ _

theorem splitAttempts_some (pool : List VideoAsset) (ap tx : String)
    (toff cd : ℚ) :
    ∀ (n vidx : Nat) (t : UsedTable) (part : ClipPart) (d : ℚ)
      (vidx2 : Nat) (t2 : UsedTable),
      splitAttempts pool ap tx toff cd n vidx t = (some (part, d), vidx2, t2) →
      part.duration = d ∧ d ≤ cd ∧ part.is_split = true ∧
        part.start_time = toff ∧ (0 < cd → 0 < d) := by
  intro n
  induction n with
  | zero =>
      intro vidx t part d vidx2 t2 heq
      unfold splitAttempts at heq
      cases heq
  | succ n ih =>
      intro vidx t part d vidx2 t2 heq
      unfold splitAttempts at heq
      dsimp only at heq
      split at heq
      next hhalf =>
        cases heq
        refine ⟨rfl, min_le_right _ _, rfl, rfl, ?_⟩
        intro hcd
        exact lt_min (lt_of_lt_of_le (by norm_num) hhalf) hcd
      next hhalf =>
        exact ih _ _ _ _ _ _ heq

theorem splitLoop_sum (cfg : EditorConfig) (pool : List VideoAsset)
    (ap tx : String) :
    ∀ (fuel : Nat) (r toff : ℚ) (vidx : Nat) (t : UsedTable), 0 ≤ r →
      sumDur (splitLoop cfg pool ap tx fuel r toff vidx t).1 ≤ r ∧
      ((splitLoop cfg pool ap tx fuel r toff vidx t).1.length < fuel →
        sumDur (splitLoop cfg pool ap tx fuel r toff vidx t).1 = r) := by
  intro fuel
  induction fuel with
  | zero =>
      intro r toff vidx t hr
      refine ⟨by simpa [splitLoop, sumDur] using hr, ?_⟩
      intro hlen
      simp [splitLoop] at hlen
  | succ fuel ih =>
      intro r toff vidx t hr
      unfold splitLoop
      dsimp only
      split
      next hle =>
        refine ⟨by simpa [sumDur] using hr, ?_⟩
        intro _
        have : r = 0 := le_antisymm hle hr
        simp [sumDur, this]
      next hle =>
        have hr0 : 0 < r := lt_of_not_le hle
        have hcdr : clipDur cfg r ≤ r := clipDur_le cfg r
        split
        next part cd2 vidx2 t2 heq =>
          obtain ⟨hdur, hdle, _, _, _⟩ :=
            splitAttempts_some _ _ _ _ _ _ _ _ _ _ _ _ heq
          have hcd2r : cd2 ≤ r := le_trans hdle hcdr
          have h2 := ih (r - cd2) (toff + cd2) vidx2 t2 (by linarith)
          constructor
          · rw [sumDur_cons, hdur]
            linarith [h2.1]
          · intro hlen
            rw [List.length_cons] at hlen
            have := h2.2 (Nat.lt_of_succ_lt_succ hlen)
            rw [sumDur_cons, hdur, this]
            ring
        next vidx2 t2 heq =>
          have h2 := ih (r - clipDur cfg r) (toff + clipDur cfg r) vidx2 t2
            (by linarith)
          constructor
          · rw [sumDur_cons]
            dsimp only
            linarith [h2.1]
          · intro hlen
            rw [List.length_cons] at hlen
            have := h2.2 (Nat.lt_of_succ_lt_succ hlen)
            rw [sumDur_cons, this]
            dsimp only
            ring

theorem splitLoop_length (cfg : EditorConfig) (pool : List VideoAsset)
    (ap tx : String) :
    ∀ (fuel : Nat) (r toff : ℚ) (vidx : Nat) (t : UsedTable),
      (splitLoop cfg pool ap tx fuel r toff vidx t).1.length ≤ fuel := by
  intro fuel
  induction fuel with
  | zero =>
      intro r toff vidx t
      simp [splitLoop]
  | succ fuel ih =>
      intro r toff vidx t
      unfold splitLoop
      dsimp only
      split
      · simp
      · split
        next part cd2 vidx2 t2 heq =>
          simpa using Nat.succ_le_succ (ih _ _ _ _)
        next vidx2 t2 heq =>
          simpa using Nat.succ_le_succ (ih _ _ _ _)

theorem splitLoop_parts (cfg : EditorConfig) (pool : List VideoAsset)
    (ap tx : String) (h1 : 0 < cfg.min_clip_duration)
    (h2 : cfg.min_clip_duration ≤ cfg.max_clip_duration) :
    ∀ (fuel : Nat) (r toff : ℚ) (vidx : Nat) (t : UsedTable),
      (∀ part ∈ (splitLoop cfg pool ap tx fuel r toff vidx t).1,
        part.is_split = true ∧ 0 < part.duration ∧
          part.duration ≤ cfg.max_clip_duration) ∧
      chainedFrom toff (splitLoop cfg pool ap tx fuel r toff vidx t).1 := by
  intro fuel
  induction fuel with
  | zero =>
      intro r toff vidx t
      exact ⟨by simp [splitLoop], by simp [splitLoop, chainedFrom]⟩
  | succ fuel ih =>
      intro r toff vidx t
      unfold splitLoop
      dsimp only
      split
      next hle =>
        exact ⟨by simp, by simp [chainedFrom]⟩
      next hle =>
        have hr0 : 0 < r := lt_of_not_le hle
        have hcdp : 0 < clipDur cfg r := clipDur_pos cfg r hr0 h1 h2
        have hcdm : clipDur cfg r ≤ cfg.max_clip_duration := clipDur_le_max cfg r h2
        split
        next part cd2 vidx2 t2 heq =>
          obtain ⟨hdur, hdle, hsp, hst, hdp⟩ :=
            splitAttempts_some _ _ _ _ _ _ _ _ _ _ _ _ heq
          have ihh := ih (r - cd2) (toff + cd2) vidx2 t2
          constructor
          · intro q hq
            rcases List.mem_cons.mp hq with hq | hq
            · subst hq
              exact ⟨hsp, by rw [hdur]; exact hdp hcdp,
                by rw [hdur]; exact le_trans hdle hcdm⟩
            · exact ihh.1 q hq
          · refine ⟨hst, ?_⟩
            rw [hdur]
            exact ihh.2
        next vidx2 t2 heq =>
          have ihh := ih (r - clipDur cfg r) (toff + clipDur cfg r) vidx2 t2
          constructor
          · intro q hq
            rcases List.mem_cons.mp hq with hq | hq
            · subst hq
              exact ⟨rfl, hcdp, hcdm⟩
            · exact ihh.1 q hq
          · exact ⟨rfl, ihh.2⟩

theorem segmentParts_skip_audio (cfg : EditorConfig) (i : Nat) (seg : Segment)
    (audio : AudioSegment) (videos : List (Option VideoAsset))
    (allValid : List VideoAsset) (t : UsedTable)
    (h : audio.duration ≤ 0) :
    segmentParts cfg i seg audio videos allValid t = ([], t) := by
  unfold segmentParts
  dsimp only
  rw [if_pos h]

theorem segmentParts_skip_novideo (cfg : EditorConfig) (i : Nat) (seg : Segment)
    (audio : AudioSegment) (videos : List (Option VideoAsset))
    (allValid : List VideoAsset) (t : UsedTable)
    (h0 : ¬ audio.duration ≤ 0) (h : (videos.get? i).getD none = none) :
    segmentParts cfg i seg audio videos allValid t = ([], t) := by
  unfold segmentParts
  dsimp only
  rw [if_neg h0, h]

theorem segmentParts_skip_notexists (cfg : EditorConfig) (i : Nat) (seg : Segment)
    (audio : AudioSegment) (videos : List (Option VideoAsset))
    (allValid : List VideoAsset) (t : UsedTable) (v : VideoAsset)
    (h0 : ¬ audio.duration ≤ 0) (hv : (videos.get? i).getD none = some v)
    (hex : v.fileExists = false) :
    segmentParts cfg i seg audio videos allValid t = ([], t) := by
  unfold segmentParts
  dsimp only
  rw [if_neg h0, hv]
  dsimp only
  rw [if_neg (by rw [hex]; exact Bool.false_ne_true)]

theorem segmentParts_split_eq (cfg : EditorConfig) (i : Nat) (seg : Segment)
    (audio : AudioSegment) (videos : List (Option VideoAsset))
    (allValid : List VideoAsset) (t : UsedTable) (v : VideoAsset)
    (hv : (videos.get? i).getD none = some v) (hex : v.fileExists = true)
    (h0 : ¬ audio.duration ≤ 0)
    (hgt : audio.duration > cfg.max_clip_duration) :
    segmentParts cfg i seg audio videos allValid t =
      createSplitClips cfg audio.duration audio.file_path v
        (videos.drop (i + 1)) seg.text allValid t := by
  unfold segmentParts
  dsimp only
  rw [if_neg h0, hv]
  dsimp only
  rw [if_pos hex, if_pos hgt]

theorem segmentParts_extend_eq (cfg : EditorConfig) (i : Nat) (seg : Segment)
    (audio : AudioSegment) (videos : List (Option VideoAsset))
    (allValid : List VideoAsset) (t : UsedTable) (v : VideoAsset)
    (hv : (videos.get? i).getD none = some v) (hex : v.fileExists = true)
    (h0 : ¬ audio.duration ≤ 0)
    (hngt : ¬ audio.duration > cfg.max_clip_duration)
    (hlt : audio.duration < cfg.min_clip_duration) :
    segmentParts cfg i seg audio videos allValid t =
      ([⟨v.file_path, audio.file_path, 0, cfg.min_clip_duration, seg.text, false,
          (getAvailableSegment t v.file_path (videoDurationOf v)
            cfg.min_clip_duration).1.1⟩],
        (getAvailableSegment t v.file_path (videoDurationOf v)
          cfg.min_clip_duration).2) := by
  unfold segmentParts
  dsimp only
  rw [if_neg h0, hv]
  dsimp only
  rw [if_pos hex, if_neg hngt, if_pos hlt]

theorem segmentParts_normal_eq (cfg : EditorConfig) (i : Nat) (seg : Segment)
    (audio : AudioSegment) (videos : List (Option VideoAsset))
    (allValid : List VideoAsset) (t : UsedTable) (v : VideoAsset)
    (hv : (videos.get? i).getD none = some v) (hex : v.fileExists = true)
    (h0 : ¬ audio.duration ≤ 0)
    (hngt : ¬ audio.duration > cfg.max_clip_duration)
    (hnlt : ¬ audio.duration < cfg.min_clip_duration) :
    segmentParts cfg i seg audio videos allValid t =
      ([⟨v.file_path, audio.file_path, 0, audio.duration, seg.text, false,
          (getAvailableSegment t v.file_path (videoDurationOf v)
            audio.duration).1.1⟩],
        (getAvailableSegment t v.file_path (videoDurationOf v)
          audio.duration).2) := by
  unfold segmentParts
  dsimp only
  rw [if_neg h0, hv]
  dsimp only
  rw [if_pos hex, if_neg hngt, if_neg hnlt]

theorem poolStep_ne_nil (acc : List VideoAsset × List String) (v : VideoAsset)
    (h : acc.1 ≠ []) : (poolStep acc v).1 ≠ [] := by
  unfold poolStep
  split
  · simp
  · exact h

theorem foldl_poolStep_ne_nil (l : List VideoAsset) :
    ∀ (acc : List VideoAsset × List String), acc.1 ≠ [] →
      (l.foldl poolStep acc).1 ≠ [] := by
  induction l with
  | nil => intro acc h; exact h
  | cons v l ih =>
      intro acc h
      exact ih _ (poolStep_ne_nil acc v h)

theorem foldl_optStep_ne_nil (l : List (Option VideoAsset)) :
    ∀ (acc : List VideoAsset × List String), acc.1 ≠ [] →
      (l.foldl (fun acc ov =>
        match ov with | some v => poolStep acc v | none => acc) acc).1 ≠ [] := by
  induction l with
  | nil => intro acc h; exact h
  | cons ov l ih =>
      intro acc h
      cases ov with
      | none => exact ih _ h
      | some v => exact ih _ (poolStep_ne_nil acc v h)

theorem buildPool_ne_nil (primary : VideoAsset)
    (fallbacks : List (Option VideoAsset)) (allAssets : List VideoAsset)
    (hex : primary.fileExists = true) :
    buildPool primary fallbacks allAssets ≠ [] := by
  unfold buildPool
  dsimp only
  rw [if_pos hex]
  exact foldl_poolStep_ne_nil allAssets _
    (foldl_optStep_ne_nil fallbacks _ (by simp))

theorem createSplitClips_eq_loop (cfg : EditorConfig) (A : ℚ) (ap : String)
    (primary : VideoAsset) (fallbacks : List (Option VideoAsset)) (tx : String)
    (allAssets : List VideoAsset) (t : UsedTable)
    (hex : primary.fileExists = true) :
    createSplitClips cfg A ap primary fallbacks tx allAssets t =
      splitLoop cfg (buildPool primary fallbacks allAssets) ap tx 10 A 0 0 t := by
  unfold createSplitClips
  dsimp only
  rw [if_neg ?_]
  rw [List.isEmpty_iff]
  exact buildPool_ne_nil primary fallbacks allAssets hex

/-- A sample script segment used in concrete runs. -/
def sampleSeg : Segment := ⟨"opening line", "nature", 3⟩

/-- A sample narration audio unit of a given measured duration. -/
def sampleAudio (d : ℚ) : AudioSegment := ⟨0, "opening line", "audio0.wav", d⟩

/-- A sample stock video that exists on disk and probes to duration `d`. -/
def sampleVideo (p : String) (d : ℚ) : VideoAsset :=
  ⟨"nature", p, "pexels", 1920, 1080, d, "", true, some d⟩

/-- C1 counterexample: a single segment with 50 seconds of audio against the
default configuration (max 4.0) is not skipped, yet its emitted parts sum to
40 seconds, because the split loop stops at the 10-slice safety cap; the
difference of 10 seconds is far beyond the claimed 1e-6 tolerance. -/
theorem c1_duration_conservation_counterexample :
    (sampleAudio 50).duration = 50 ∧
    sumDur (planClipSplits defaultConfig [sampleSeg] [sampleAudio 50]
      [some (sampleVideo "a.mp4" 1000)]) = 40 ∧
    (1 : ℚ)/1000000 <
      |sumDur (planClipSplits defaultConfig [sampleSeg] [sampleAudio 50]
        [some (sampleVideo "a.mp4" 1000)]) - (sampleAudio 50).duration| := by
  refine ⟨rfl, ?_, ?_⟩
  · with_unfolding_all decide
  · with_unfolding_all decide

/-- C1 (amended): for a segment that is not skipped, the emitted durations
sum to the configured minimum when the audio is below it, and to the exact
audio duration otherwise — except that in split mode the equality is only
guaranteed while the 10-slice safety cap is not reached (fewer than 10
parts); in all split cases the sum never exceeds the audio duration. -/
theorem c1_duration_conservation_amended (cfg : EditorConfig) (i : Nat)
    (seg : Segment) (audio : AudioSegment) (videos : List (Option VideoAsset))
    (allValid : List VideoAsset) (t : UsedTable) (v : VideoAsset)
    (hv : (videos.get? i).getD none = some v) (hex : v.fileExists = true)
    (hA : 0 < audio.duration)
    (hmm : cfg.min_clip_duration ≤ cfg.max_clip_duration) :
    (audio.duration < cfg.min_clip_duration →
      sumDur (segmentParts cfg i seg audio videos allValid t).1 =
        cfg.min_clip_duration) ∧
    (cfg.min_clip_duration ≤ audio.duration →
      audio.duration ≤ cfg.max_clip_duration →
      sumDur (segmentParts cfg i seg audio videos allValid t).1 =
        audio.duration) ∧
    (cfg.max_clip_duration < audio.duration →
      sumDur (segmentParts cfg i seg audio videos allValid t).1 ≤
          audio.duration ∧
        ((segmentParts cfg i seg audio videos allValid t).1.length < 10 →
          sumDur (segmentParts cfg i seg audio videos allValid t).1 =
            audio.duration)) := by
  have h0 : ¬ audio.duration ≤ 0 := not_le.mpr hA
  refine ⟨?_, ?_, ?_⟩
  · intro hlt
    have hngt : ¬ audio.duration > cfg.max_clip_duration :=
      not_lt.mpr (le_trans (le_of_lt hlt) hmm)
    rw [segmentParts_extend_eq cfg i seg audio videos allValid t v
      hv hex h0 hngt hlt]
    simp [sumDur_cons, sumDur_nil]
  · intro h1 h2
    rw [segmentParts_normal_eq cfg i seg audio videos allValid t v
      hv hex h0 (not_lt.mpr h2) (not_lt.mpr h1)]
    simp [sumDur_cons, sumDur_nil]
  · intro hgt
    rw [segmentParts_split_eq cfg i seg audio videos allValid t v
      hv hex h0 hgt]
    rw [createSplitClips_eq_loop cfg audio.duration audio.file_path v
      (videos.drop (i + 1)) seg.text allValid t hex]
    exact splitLoop_sum cfg _ _ _ 10 audio.duration 0 0 t (le_of_lt hA)

/-- Witness for the amended C1 theorem: concrete runs in all three modes of
the default configuration (audio 1.0, 3.0 and 10.0 seconds). -/
theorem c1_duration_conservation_amended_witness :
    sumDur (segmentParts defaultConfig 0 sampleSeg (sampleAudio 1)
      [some (sampleVideo "a.mp4" 1000)] [] []).1 = 3/2 ∧
    sumDur (segmentParts defaultConfig 0 sampleSeg (sampleAudio 3)
      [some (sampleVideo "a.mp4" 1000)] [] []).1 = 3 ∧
    sumDur (segmentParts defaultConfig 0 sampleSeg (sampleAudio 10)
      [some (sampleVideo "a.mp4" 1000)] [] []).1 = 10 := by
  refine ⟨?_, ?_, ?_⟩
  · exact (c1_duration_conservation_amended defaultConfig 0 sampleSeg
      (sampleAudio 1) [some (sampleVideo "a.mp4" 1000)] [] []
      (sampleVideo "a.mp4" 1000) rfl rfl (by norm_num [sampleAudio])
      (by norm_num [defaultConfig])).1 (by norm_num [sampleAudio, defaultConfig])
  · exact (c1_duration_conservation_amended defaultConfig 0 sampleSeg
      (sampleAudio 3) [some (sampleVideo "a.mp4" 1000)] [] []
      (sampleVideo "a.mp4" 1000) rfl rfl (by norm_num [sampleAudio])
      (by norm_num [defaultConfig])).2.1
      (by norm_num [sampleAudio, defaultConfig])
      (by norm_num [sampleAudio, defaultConfig])
  · exact ((c1_duration_conservation_amended defaultConfig 0 sampleSeg
      (sampleAudio 10) [some (sampleVideo "a.mp4" 1000)] [] []
      (sampleVideo "a.mp4" 1000) rfl rfl (by norm_num [sampleAudio])
      (by norm_num [defaultConfig])).2.2
      (by norm_num [sampleAudio, defaultConfig])).2
      (by with_unfolding_all decide)

/-- C3 counterexample: an audio duration exactly equal to
`max_clip_duration` (4.0 under the default configuration) does not enter
split mode — the planner emits a single part with `is_split = false`,
because the code tests `audio_duration > max_clip_duration` strictly. -/
theorem c3_split_boundary_counterexample :
    (sampleAudio 4).duration = defaultConfig.max_clip_duration ∧
    (planClipSplits defaultConfig [sampleSeg] [sampleAudio 4]
        [some (sampleVideo "a.mp4" 1000)]).map ClipPart.is_split = [false] := by
  refine ⟨rfl, ?_⟩
  with_unfolding_all decide

/-- C3 (amended): split mode is entered only for audio strictly longer than
`max_clip_duration`; in that case every emitted part has `is_split = true`,
a positive duration of at most `max_clip_duration`, and the timeline
offsets start at 0 and increase by exactly the preceding part's duration
(`chainedFrom`).  Slices are not always `max_clip_duration` long before the
final remainder: each part's duration is `min(actual_duration,
clip_duration)`, so the allocator's clipping to a short video shortens
non-final slices — the last conjunct records that a 3-second video under
10 seconds of audio yields slice durations `[3, 3, 3, 1]`. -/
theorem c3_split_mode_amended (cfg : EditorConfig) (i : Nat)
    (seg : Segment) (audio : AudioSegment) (videos : List (Option VideoAsset))
    (allValid : List VideoAsset) (t : UsedTable) (v : VideoAsset)
    (hv : (videos.get? i).getD none = some v) (hex : v.fileExists = true)
    (hmin : 0 < cfg.min_clip_duration)
    (hmm : cfg.min_clip_duration ≤ cfg.max_clip_duration)
    (hgt : cfg.max_clip_duration < audio.duration) :
    (∀ part ∈ (segmentParts cfg i seg audio videos allValid t).1,
      part.is_split = true ∧ 0 < part.duration ∧
        part.duration ≤ cfg.max_clip_duration) ∧
    chainedFrom 0 (segmentParts cfg i seg audio videos allValid t).1 ∧
    (segmentParts defaultConfig 0 sampleSeg (sampleAudio 10)
        [some (sampleVideo "c.mp4" 3)] [] []).1.map ClipPart.duration =
      [3, 3, 3, 1] := by
  have hA : 0 < audio.duration := lt_trans (lt_of_lt_of_le hmin hmm) hgt
  rw [segmentParts_split_eq cfg i seg audio videos allValid t v
    hv hex (not_le.mpr hA) hgt]
  rw [createSplitClips_eq_loop cfg audio.duration audio.file_path v
    (videos.drop (i + 1)) seg.text allValid t hex]
  have h := splitLoop_parts cfg (buildPool v (videos.drop (i + 1)) allValid)
    audio.file_path seg.text hmin hmm 10 audio.duration 0 0 t
  exact ⟨h.1, h.2, by with_unfolding_all decide⟩

/-- Witness for the amended C3 theorem: a 10-second segment under the
default configuration. -/
theorem c3_split_mode_amended_witness :
    (∀ part ∈ (segmentParts defaultConfig 0 sampleSeg (sampleAudio 10)
        [some (sampleVideo "a.mp4" 1000)] [] []).1,
      part.is_split = true ∧ 0 < part.duration ∧
        part.duration ≤ defaultConfig.max_clip_duration) ∧
    chainedFrom 0 (segmentParts defaultConfig 0 sampleSeg (sampleAudio 10)
      [some (sampleVideo "a.mp4" 1000)] [] []).1 ∧
    (segmentParts defaultConfig 0 sampleSeg (sampleAudio 10)
        [some (sampleVideo "c.mp4" 3)] [] []).1.map ClipPart.duration =
      [3, 3, 3, 1] :=
  c3_split_mode_amended defaultConfig 0 sampleSeg (sampleAudio 10)
    [some (sampleVideo "a.mp4" 1000)] [] [] (sampleVideo "a.mp4" 1000)
    rfl rfl (by norm_num [defaultConfig]) (by norm_num [defaultConfig])
    (by norm_num [sampleAudio, defaultConfig])

/-- C4: for a non-skipped index with positive audio duration `A` (and a
consistent configuration `MIN ≤ MAX`), `A < MIN` produces exactly one part
of duration `MIN` with `is_split = false`, and `MIN ≤ A ≤ MAX` produces
exactly one part of duration `A` with `is_split = false`; in both cases the
video offset is the start returned by the allocator queried against this
index's own video. -/
theorem c4_submax_modes (cfg : EditorConfig) (i : Nat)
    (seg : Segment) (audio : AudioSegment) (videos : List (Option VideoAsset))
    (allValid : List VideoAsset) (t : UsedTable) (v : VideoAsset)
    (hv : (videos.get? i).getD none = some v) (hex : v.fileExists = true)
    (hA : 0 < audio.duration)
    (hmm : cfg.min_clip_duration ≤ cfg.max_clip_duration) :
    (audio.duration < cfg.min_clip_duration →
      segmentParts cfg i seg audio videos allValid t =
        ([⟨v.file_path, audio.file_path, 0, cfg.min_clip_duration, seg.text,
            false, (getAvailableSegment t v.file_path (videoDurationOf v)
              cfg.min_clip_duration).1.1⟩],
          (getAvailableSegment t v.file_path (videoDurationOf v)
            cfg.min_clip_duration).2)) ∧
    (cfg.min_clip_duration ≤ audio.duration →
      audio.duration ≤ cfg.max_clip_duration →
      segmentParts cfg i seg audio videos allValid t =
        ([⟨v.file_path, audio.file_path, 0, audio.duration, seg.text,
            false, (getAvailableSegment t v.file_path (videoDurationOf v)
              audio.duration).1.1⟩],
          (getAvailableSegment t v.file_path (videoDurationOf v)
            audio.duration).2)) := by
  have h0 : ¬ audio.duration ≤ 0 := not_le.mpr hA
  constructor
  · intro hlt
    exact segmentParts_extend_eq cfg i seg audio videos allValid t v
      hv hex h0 (not_lt.mpr (le_trans (le_of_lt hlt) hmm)) hlt
  · intro h1 h2
    exact segmentParts_normal_eq cfg i seg audio videos allValid t v
      hv hex h0 (not_lt.mpr h2) (not_lt.mpr h1)

/-- Witness for C4: concrete extend-mode (audio 1.0) and normal-mode
(audio 3.0) runs under the default configuration, starting from an empty
allocator table. -/
theorem c4_submax_modes_witness :
    segmentParts defaultConfig 0 sampleSeg (sampleAudio 1)
        [some (sampleVideo "a.mp4" 1000)] [] [] =
      ([⟨"a.mp4", "audio0.wav", 0, 3/2, "opening line", false, 0⟩],
        [("a.mp4", [(0, 3/2)])]) ∧
    segmentParts defaultConfig 0 sampleSeg (sampleAudio 3)
        [some (sampleVideo "a.mp4" 1000)] [] [] =
      ([⟨"a.mp4", "audio0.wav", 0, 3, "opening line", false, 0⟩],
        [("a.mp4", [(0, 3)])]) := by
  constructor
  · have h := (c4_submax_modes defaultConfig 0 sampleSeg (sampleAudio 1)
      [some (sampleVideo "a.mp4" 1000)] [] [] (sampleVideo "a.mp4" 1000)
      rfl rfl (by norm_num [sampleAudio]) (by norm_num [defaultConfig])).1
      (by norm_num [sampleAudio, defaultConfig])
    rw [h]
    with_unfolding_all decide
  · have h := (c4_submax_modes defaultConfig 0 sampleSeg (sampleAudio 3)
      [some (sampleVideo "a.mp4" 1000)] [] [] (sampleVideo "a.mp4" 1000)
      rfl rfl (by norm_num [sampleAudio]) (by norm_num [defaultConfig])).2
      (by norm_num [sampleAudio, defaultConfig])
      (by norm_num [sampleAudio, defaultConfig])
    rw [h]
    with_unfolding_all decide

/-- C2 counterexample: one 10-second segment under the default
configuration, with its own video only 4 seconds long and a second
candidate 100 seconds long.  The third slice reuses video `a.mp4` from
offset 0, overlapping the first slice's `(0,4)` source range, even though
the pool video `b.mp4` is far from exhausted: at the end of the run the
allocator would still accept a fresh 2-second range of `b.mp4` (the find
in the last conjunct succeeds).  The reuse happens because the allocator's
last resort is per-video: its fallback answer for the exhausted `a.mp4`
lasts at least half a second, so the planner accepts it without ever
trying `b.mp4` for that slice. -/
theorem c2_no_repetition_counterexample :
    ((planClipSplits defaultConfig [sampleSeg] [sampleAudio 10]
        [some (sampleVideo "a.mp4" 4), some (sampleVideo "b.mp4" 100)]).map
      (fun p => (p.video_path, partRange p, p.is_split)) =
      [("a.mp4", (0, 4), true), ("b.mp4", (0, 4), true),
        ("a.mp4", (0, 2), true)]) ∧
    rangesOverlap (0, 4) (0, 2) ∧
    ((potentialStarts (rangesOf (planClipSplitsT defaultConfig [sampleSeg]
          [sampleAudio 10] [some (sampleVideo "a.mp4" 4),
            some (sampleVideo "b.mp4" 100)]).2 "b.mp4") 100).find?
      (acceptsB (rangesOf (planClipSplitsT defaultConfig [sampleSeg]
          [sampleAudio 10] [some (sampleVideo "a.mp4" 4),
            some (sampleVideo "b.mp4" 100)]).2 "b.mp4") 100 2)).isSome
      = true := by
  refine ⟨?_, ?_, ?_⟩
  · with_unfolding_all decide
  · with_unfolding_all decide
  · with_unfolding_all decide

/-- C2 (amended): within one planning run the ranges the allocator records
are pairwise disjoint for every video file, so footage repetition can come
only from allocator answers that were not recorded as claims — the
per-video last resort — or from a part's presentation duration running past
its claimed range; the last resort fires per video, so the same footage can
be shown twice even while other pool videos still hold unused ranges. -/
theorem c2_no_repetition_amended (cfg : EditorConfig) (segments : List Segment)
    (audio_segments : List AudioSegment) (videos : List (Option VideoAsset))
    (p : String) :
    (rangesOf (planClipSplitsT cfg segments audio_segments videos).2
      p).Pairwise disjRange :=
  planLoop_TableOK cfg videos (allValidOf videos)
    (segments.zip audio_segments) 0 [] empty_TableOK p

/-- The acceptance test exactly as the specification words it: the clipped
candidate `[s, min(s+needed, vid))` must last at least 0.5 seconds and must
overlap no already-claimed range. -/
def specAccepts (claimed : List Range) (vid needed : ℚ) (s : ℚ) : Bool :=
  decide ((1 : ℚ)/2 ≤ min (s + needed) vid - s) &&
    claimed.all (fun u => !(decide (rangesOverlap (s, min (s + needed) vid) u)))

/-- The allocator acquire contract as the specification words it, over an
abstract claims table (a function from path to claimed ranges): candidates
are `0.0` followed by the ends of the sorted claimed ranges still below the
video duration; the first accepted candidate is returned and recorded; if
none is accepted, `(0.0, min(needed, vid))` is returned and the table is
left unchanged. -/
def acquireSpec (claims : String → List Range) (p : String) (vid needed : ℚ) :
    (ℚ × ℚ) × (String → List Range) :=
  match (0 :: ((sortRanges (claims p)).filter
      (fun r => decide (r.2 < vid))).map Prod.snd).find?
      (specAccepts (claims p) vid needed) with
  | some s =>
      ((s, min (s + needed) vid - s),
       fun q => if q = p then claims p ++ [(s, min (s + needed) vid)]
                else claims q)
  | none => ((0, min needed vid), claims)

theorem nonoverlap_bool (s e u1 u2 : ℚ) :
    (decide (e ≤ u1) || decide (s ≥ u2)) = !(decide (s < u2 ∧ u1 < e)) := by
  rcases le_or_lt e u1 with h1 | h1 <;> rcases le_or_lt u2 s with h2 | h2 <;>
    simp [h1, h2, not_lt.mpr, ge_iff_le, not_and, not_lt]

theorem acceptsB_eq_specAccepts (used : List Range) (vid needed : ℚ) :
    acceptsB used vid needed = specAccepts used vid needed := by
  funext s
  unfold acceptsB specAccepts
  dsimp only
  rw [not_any_eq_all_not]
  have hfun : (fun (a : Range) =>
      !(!(decide (min (s + needed) vid ≤ a.1) || decide (s ≥ a.2)))) =
      (fun (u : Range) =>
        !(decide (rangesOverlap (s, min (s + needed) vid) u))) := by
    funext u
    rw [Bool.not_not, nonoverlap_bool]
    exact congrArg Bool.not (decide_eq_decide.mpr Iff.rfl)
  rw [hfun]

theorem c5_acquire_contract (t : UsedTable) (p : String) (vid needed : ℚ) :
    (getAvailableSegment t p vid needed).1 =
      (acquireSpec (rangesOf t) p vid needed).1 ∧
    ∀ q, rangesOf (getAvailableSegment t p vid needed).2 q =
      (acquireSpec (rangesOf t) p vid needed).2 q := by
  rw [getAvailableSegment_eq]
  unfold acquireSpec potentialStarts
  rw [acceptsB_eq_specAccepts]
  cases hf : (0 :: ((sortRanges (rangesOf t p)).filter
      (fun r => decide (r.2 < vid))).map Prod.snd).find?
      (specAccepts (rangesOf t p) vid needed) with
  | none =>
      refine ⟨rfl, ?_⟩
      intro q
      exact rangesOf_ensurePath t p q
  | some s =>
      refine ⟨rfl, ?_⟩
      intro q
      dsimp only
      by_cases hq : q = p
      · subst hq
        rw [rangesOf_setRanges_self _ _ _ (any_ensurePath t q), if_pos rfl]
      · have hq3 : ¬ (p == q) = true := by
          simpa using fun h => hq h.symm
        rw [rangesOf_setRanges_ne _ _ _ _ hq3, rangesOf_ensurePath, if_neg hq]

/-- C6 counterexample: with range `(0,1)` already claimed for the path and
`neededDuration = 5` exceeding `videoTotalDuration = 2`, the allocator
accepts the later candidate start `1` and returns an actual duration of
only `1`, not the full file duration `2` — so the full-file-clip guarantee
does not hold regardless of the claimed ranges. -/
theorem c6_full_file_counterexample :
    (5 : ℚ) > 2 ∧
    (getAvailableSegment [("p", [(0, 1)])] "p" 2 5).1 = (1, 1) ∧
    (1 : ℚ) ≠ 2 := by
  refine ⟨by norm_num, ?_, by norm_num⟩
  with_unfolding_all decide

/-- C6 (amended): the full-file answer `actualDuration = videoTotalDuration`
for `neededDuration ≥ videoTotalDuration ≥ 0.5` is guaranteed only when no
range is yet claimed for the path (with claims present, a later accepted
candidate start `s` yields `videoTotalDuration - s` instead); and a
`videoTotalDuration` below 0.5 seconds takes the last-resort branch
immediately — returning `(0, min(needed, vid))` and leaving every path's
claimed ranges unchanged — provided the claimed ranges for the path end at
nonnegative offsets, as all ranges recorded by the allocator do. -/
theorem c6_full_file_amended (t : UsedTable) (p : String) (vid needed : ℚ) :
    (rangesOf t p = [] → (1 : ℚ)/2 ≤ vid → vid ≤ needed →
      (getAvailableSegment t p vid needed).1.2 = vid) ∧
    (vid < (1 : ℚ)/2 → (∀ u ∈ rangesOf t p, 0 ≤ u.2) →
      (getAvailableSegment t p vid needed).1 = (0, min needed vid) ∧
      ∀ q, rangesOf (getAvailableSegment t p vid needed).2 q =
        rangesOf t q) := by
  constructor
  · intro h0 hv hn
    rw [getAvailableSegment_eq, h0]
    have hps : potentialStarts [] vid = [0] := rfl
    rw [hps]
    have hacc : acceptsB [] vid needed 0 = true := by
      unfold acceptsB
      simp [zero_add, min_eq_right hn]
      linarith
    rw [List.find?_cons_of_pos _ hacc]
    dsimp only
    rw [zero_add, min_eq_right hn, sub_zero]
  · intro hvid hend
    have hnone : (potentialStarts (rangesOf t p) vid).find?
        (acceptsB (rangesOf t p) vid needed) = none := by
      rw [List.find?_eq_none]
      intro s hs hacc
      unfold acceptsB at hacc
      simp only [Bool.and_eq_true, decide_eq_true_eq] at hacc
      have h12 : (1 : ℚ)/2 ≤ min (s + needed) vid - s := hacc.1
      have hs0 : 0 ≤ s := by
        simp only [potentialStarts, List.mem_cons, List.mem_map,
          List.mem_filter] at hs
        rcases hs with rfl | ⟨r, ⟨hr1, _⟩, rfl⟩
        · exact le_refl 0
        · exact hend r ((mem_sortRanges r _).mp hr1)
      have hmv : min (s + needed) vid - s ≤ vid - s :=
        sub_le_sub_right (min_le_right _ _) s
      linarith
    rw [getAvailableSegment_eq, hnone]
    exact ⟨rfl, fun q => rangesOf_ensurePath t p q⟩

/-- Witness for the amended C6 theorem: a fresh path with a 1-second video
and a 5-second request yields the full second; a 0.25-second video with a
range already claimed takes the last resort. -/
theorem c6_full_file_amended_witness :
    (getAvailableSegment [] "p" 1 5).1.2 = 1 ∧
    (getAvailableSegment [("q", [(0, 1)])] "q" (1/4) 3).1 =
      (0, min 3 (1/4)) := by
  constructor
  · exact (c6_full_file_amended [] "p" 1 5).1 rfl (by norm_num) (by norm_num)
  · exact ((c6_full_file_amended [("q", [(0, 1)])] "q" (1/4) 3).2
      (by norm_num) (by with_unfolding_all decide)).1

/-- C7: skip semantics and ordering.  An index with non-positive audio
duration, or a missing video entry, or a video whose file does not exist,
contributes nothing and planning continues with the next index (the model
is total, so no exception is possible); the output is the in-order
concatenation of each index's parts, so parts keep the relative order of
their originating indices and split parts stay contiguous; and the concrete
3-segment run with a zero-duration audio at index 1 yields exactly the
parts of indices 0 and 2, in order. -/
theorem c7_skip_and_ordering :
    (∀ (cfg : EditorConfig) (videos : List (Option VideoAsset))
        (allValid : List VideoAsset) (s : Segment) (a : AudioSegment)
        (rest : List (Segment × AudioSegment)) (i : Nat) (t : UsedTable),
      a.duration ≤ 0 →
      planLoop cfg videos allValid ((s, a) :: rest) i t =
        planLoop cfg videos allValid rest (i + 1) t) ∧
    (∀ (cfg : EditorConfig) (videos : List (Option VideoAsset))
        (allValid : List VideoAsset) (s : Segment) (a : AudioSegment)
        (rest : List (Segment × AudioSegment)) (i : Nat) (t : UsedTable),
      ¬ a.duration ≤ 0 → (videos.get? i).getD none = none →
      planLoop cfg videos allValid ((s, a) :: rest) i t =
        planLoop cfg videos allValid rest (i + 1) t) ∧
    (∀ (cfg : EditorConfig) (videos : List (Option VideoAsset))
        (allValid : List VideoAsset) (s : Segment) (a : AudioSegment)
        (rest : List (Segment × AudioSegment)) (i : Nat) (t : UsedTable)
        (v : VideoAsset),
      ¬ a.duration ≤ 0 → (videos.get? i).getD none = some v →
      v.fileExists = false →
      planLoop cfg videos allValid ((s, a) :: rest) i t =
        planLoop cfg videos allValid rest (i + 1) t) ∧
    (∀ (cfg : EditorConfig) (videos : List (Option VideoAsset))
        (allValid : List VideoAsset) (s : Segment) (a : AudioSegment)
        (rest : List (Segment × AudioSegment)) (i : Nat) (t : UsedTable),
      (planLoop cfg videos allValid ((s, a) :: rest) i t).1 =
        (segmentParts cfg i s a videos allValid t).1 ++
          (planLoop cfg videos allValid rest (i + 1)
            (segmentParts cfg i s a videos allValid t).2).1) ∧
    ((planClipSplits defaultConfig
        [⟨"s0", "k", 0⟩, ⟨"s1", "k", 0⟩, ⟨"s2", "k", 0⟩]
        [⟨0, "s0", "a0.wav", 2⟩, ⟨1, "s1", "a1.wav", 0⟩, ⟨2, "s2", "a2.wav", 3⟩]
        [some (sampleVideo "a.mp4" 1000), some (sampleVideo "a.mp4" 1000),
          some (sampleVideo "b.mp4" 100)]).map
      (fun p => (p.audio_path, p.duration, p.is_split)) =
      [("a0.wav", 2, false), ("a2.wav", 3, false)]) := by
  refine ⟨?_, ?_, ?_, ?_, ?_⟩
  · intro cfg videos allValid s a rest i t h
    conv_lhs => rw [planLoop]
    rw [segmentParts_skip_audio cfg i s a videos allValid t h]
    simp
  · intro cfg videos allValid s a rest i t h0 h
    conv_lhs => rw [planLoop]
    rw [segmentParts_skip_novideo cfg i s a videos allValid t h0 h]
    simp
  · intro cfg videos allValid s a rest i t v h0 hv hex
    conv_lhs => rw [planLoop]
    rw [segmentParts_skip_notexists cfg i s a videos allValid t v h0 hv hex]
    simp
  · intro cfg videos allValid s a rest i t
    rfl
  · with_unfolding_all decide

/-- Witness for C7: a concrete zero-duration skip, a concrete
missing-video skip, and a concrete missing-file skip. -/
theorem c7_skip_and_ordering_witness :
    planLoop defaultConfig [] [] [(sampleSeg, sampleAudio 0)] 0 [] =
      planLoop defaultConfig [] [] [] 1 [] ∧
    planLoop defaultConfig [] [] [(sampleSeg, sampleAudio 2)] 0 [] =
      planLoop defaultConfig [] [] [] 1 [] ∧
    planLoop defaultConfig [some ⟨"k", "gone.mp4", "px", 0, 0, 5, "", false,
        none⟩] [] [(sampleSeg, sampleAudio 2)] 0 [] =
      planLoop defaultConfig [some ⟨"k", "gone.mp4", "px", 0, 0, 5, "", false,
        none⟩] [] [] 1 [] := by
  refine ⟨?_, ?_, ?_⟩
  · exact c7_skip_and_ordering.1 defaultConfig [] [] sampleSeg (sampleAudio 0)
      [] 0 [] (by norm_num [sampleAudio])
  · exact c7_skip_and_ordering.2.1 defaultConfig [] [] sampleSeg
      (sampleAudio 2) [] 0 [] (by norm_num [sampleAudio]) rfl
  · exact c7_skip_and_ordering.2.2.1 defaultConfig
      [some ⟨"k", "gone.mp4", "px", 0, 0, 5, "", false, none⟩] [] sampleSeg
      (sampleAudio 2) [] 0 []
      ⟨"k", "gone.mp4", "px", 0, 0, 5, "", false, none⟩
      (by norm_num [sampleAudio]) rfl rfl

/-- C8: the split loop always terminates (it is fuel-bounded by the
`max_clips = 10` counter, which the Python loop increments on every
iteration) and emits at most 10 clip parts for a single segment; a fortiori
every single index of the planner emits at most 10 parts. -/
theorem c8_split_cap :
    (∀ (cfg : EditorConfig) (A : ℚ) (ap : String) (primary : VideoAsset)
        (fallbacks : List (Option VideoAsset)) (tx : String)
        (allAssets : List VideoAsset) (t : UsedTable),
      (createSplitClips cfg A ap primary fallbacks tx allAssets t).1.length
        ≤ 10) ∧
    (∀ (cfg : EditorConfig) (i : Nat) (seg : Segment) (audio : AudioSegment)
        (videos : List (Option VideoAsset)) (allValid : List VideoAsset)
        (t : UsedTable),
      (segmentParts cfg i seg audio videos allValid t).1.length ≤ 10) := by
  have hc : ∀ (cfg : EditorConfig) (A : ℚ) (ap : String)
      (primary : VideoAsset) (fallbacks : List (Option VideoAsset))
      (tx : String) (allAssets : List VideoAsset) (t : UsedTable),
      (createSplitClips cfg A ap primary fallbacks tx allAssets t).1.length
        ≤ 10 := by
    intro cfg A ap primary fallbacks tx allAssets t
    unfold createSplitClips
    dsimp only
    split
    · simp
    · exact splitLoop_length cfg _ ap tx 10 A 0 0 t
  refine ⟨hc, ?_⟩
  intro cfg i seg audio videos allValid t
  unfold segmentParts
  dsimp only
  split
  · simp
  · split
    · simp
    · split
      · split
        · exact hc _ _ _ _ _ _ _ _
        · split
          · simp
          · simp
      · simp

/-- C9: the render preview is consistent with the planner: it reports the
script's segment count, the clip-part count, the exact sum of the planned
durations, and the number of parts flagged as split, all computed by
running `_plan_clip_splits` on the same inputs. -/
theorem c9_preview_consistency (cfg : EditorConfig) (script : VideoScript)
    (audio_segments : List AudioSegment) (videos : List (Option VideoAsset)) :
    (getRenderPreview cfg script audio_segments videos).total_segments =
      script.segments.length ∧
    (getRenderPreview cfg script audio_segments videos).total_clip_parts =
      (planClipSplits cfg script.segments audio_segments videos).length ∧
    (getRenderPreview cfg script audio_segments videos).total_duration =
      sumDur (planClipSplits cfg script.segments audio_segments videos) ∧
    (getRenderPreview cfg script audio_segments videos).split_clips =
      (planClipSplits cfg script.segments audio_segments videos).countP
        (fun p => p.is_split) := by
  refine ⟨rfl, rfl, rfl, ?_⟩
  unfold getRenderPreview
  dsimp only
  rw [List.countP_eq_length_filter]

theorem zip_take_len {α β : Type} : ∀ (l1 : List α) (l2 : List β),
    (l1.take l2.length).zip l2 = l1.zip l2 := by
  intro l1
  induction l1 with
  | nil => intro l2; simp
  | cons x l1 ih =>
      intro l2
      cases l2 with
      | nil => simp
      | cons y l2 => simp [ih]

theorem replicate_none_get (k i : Nat) :
    ((List.replicate k (none : Option VideoAsset)).get? i).getD none = none := by
  rcases h : (List.replicate k (none : Option VideoAsset)).get? i with _ | x
  · rfl
  · rw [List.eq_of_mem_replicate (List.get?_mem h)]
    rfl

theorem getD_pad : ∀ (videos : List (Option VideoAsset)) (k i : Nat),
    ((videos ++ List.replicate k none).get? i).getD none =
      (videos.get? i).getD none := by
  intro videos
  induction videos with
  | nil =>
      intro k i
      rw [List.nil_append]
      exact replicate_none_get k i
  | cons v videos ih =>
      intro k i
      cases i with
      | zero => rfl
      | succ i => exact ih k i

theorem foldl_optStep_nones (l : List (Option VideoAsset))
    (h : ∀ x ∈ l, x = none) :
    ∀ (acc : List VideoAsset × List String),
      l.foldl (fun acc ov =>
        match ov with | some v => poolStep acc v | none => acc) acc = acc := by
  induction l with
  | nil => intro acc; rfl
  | cons x l ih =>
      intro acc
      have hx : x = none := h x (List.mem_cons_self x l)
      subst hx
      exact ih (fun y hy => h y (List.mem_cons_of_mem _ hy)) acc

theorem buildPool_append_nones (primary : VideoAsset)
    (allAssets : List VideoAsset) (fb l : List (Option VideoAsset))
    (h : ∀ x ∈ l, x = none) :
    buildPool primary (fb ++ l) allAssets = buildPool primary fb allAssets := by
  unfold buildPool
  dsimp only
  rw [List.foldl_append, foldl_optStep_nones l h]

theorem createSplitClips_pad (cfg : EditorConfig) (A : ℚ) (ap : String)
    (primary : VideoAsset) (tx : String) (allAssets : List VideoAsset)
    (t : UsedTable) (videos : List (Option VideoAsset)) (k n : Nat) :
    createSplitClips cfg A ap primary
        ((videos ++ List.replicate k none).drop n) tx allAssets t =
      createSplitClips cfg A ap primary (videos.drop n) tx allAssets t := by
  rw [List.drop_append_eq_append_drop, List.drop_replicate]
  unfold createSplitClips
  dsimp only
  rw [buildPool_append_nones primary allAssets _ _
    (fun x hx => List.eq_of_mem_replicate hx)]

theorem segmentParts_pad (cfg : EditorConfig) (i : Nat) (seg : Segment)
    (audio : AudioSegment) (videos : List (Option VideoAsset)) (k : Nat)
    (allValid : List VideoAsset) (t : UsedTable) :
    segmentParts cfg i seg audio (videos ++ List.replicate k none) allValid t =
      segmentParts cfg i seg audio videos allValid t := by
  unfold segmentParts
  dsimp only
  rw [getD_pad]
  by_cases hA0 : audio.duration ≤ 0
  · rw [if_pos hA0, if_pos hA0]
  · rw [if_neg hA0, if_neg hA0]
    cases hV : (videos.get? i).getD none with
    | none => rfl
    | some v =>
        dsimp only
        by_cases hex : v.fileExists = true
        · rw [if_pos hex, if_pos hex]
          by_cases hgt : audio.duration > cfg.max_clip_duration
          · rw [if_pos hgt, if_pos hgt]
            exact createSplitClips_pad cfg audio.duration audio.file_path v
              seg.text allValid t videos k (i + 1)
          · rw [if_neg hgt, if_neg hgt]
        · rw [if_neg hex, if_neg hex]

theorem planLoop_pad (cfg : EditorConfig) (videos : List (Option VideoAsset))
    (k : Nat) (allValid : List VideoAsset) :
    ∀ (pairs : List (Segment × AudioSegment)) (i : Nat) (t : UsedTable),
      planLoop cfg (videos ++ List.replicate k none) allValid pairs i t =
        planLoop cfg videos allValid pairs i t := by
  intro pairs
  induction pairs with
  | nil => intro i t; rfl
  | cons pr rest ih =>
      intro i t
      cases pr with
      | mk s a =>
          simp only [planLoop]
          rw [segmentParts_pad, ih]

theorem allValidOf_pad (videos : List (Option VideoAsset)) (k : Nat) :
    allValidOf (videos ++ List.replicate k none) = allValidOf videos := by
  unfold allValidOf
  rw [List.filterMap_append]
  have h : (List.replicate k (none : Option VideoAsset)).filterMap id = [] := by
    induction k with
    | zero => rfl
    | succ k ih => simp [List.replicate_succ, ih]
  rw [h, List.append_nil]

/-- C10: mismatched input-list lengths never make the planner fail: script
segments beyond the audio list's length are silently dropped by the
pairwise zip, and video entries beyond the provided list behave exactly as
absent videos (padding the video list with `none` entries changes
nothing), so every index at or past either list's end is skipped; the
model is a total function, so no exception can be raised. -/
theorem c10_length_mismatch_tolerance :
    (∀ (cfg : EditorConfig) (segments : List Segment)
        (audio_segments : List AudioSegment)
        (videos : List (Option VideoAsset)),
      planClipSplits cfg segments audio_segments videos =
        planClipSplits cfg (segments.take audio_segments.length)
          audio_segments videos) ∧
    (∀ (cfg : EditorConfig) (segments : List Segment)
        (audio_segments : List AudioSegment)
        (videos : List (Option VideoAsset)) (k : Nat),
      planClipSplits cfg segments audio_segments
          (videos ++ List.replicate k none) =
        planClipSplits cfg segments audio_segments videos) := by
  constructor
  · intro cfg segments audio_segments videos
    unfold planClipSplits planClipSplitsT
    rw [zip_take_len]
  · intro cfg segments audio_segments videos k
    unfold planClipSplits planClipSplitsT
    rw [allValidOf_pad, planLoop_pad]
